import Mathlib

/-!
Verification of the orchestration core in `src/autostake/index.mjs`:
the retry controller (`runWithRetry`), the per-network scheduler closure
(`run`), and the reporting helpers (`logResults`, `logSummary`).

External collaborators (`NetworkRunner`, `Health`, `executeSync`,
`getNetworkRunner`'s network/wallet plumbing) are not part of the core
source file; they are modelled as oracles/event traces following the
spec's contracts, while all control flow of `index.mjs` is translated
statement by statement.
-/

namespace Restake

/-- One per-transaction result, as stored in `networkRunner.results`
(`{message, error?}`).  `error = some s` models the JS `error` field being
present with string value `s`; `none` models an absent field. -/
structure TxResult where
  message : String
  error : Option String
deriving DecidableEq

/-- Observable state of a constructed `NetworkRunner` instance, as read by
`index.mjs`: `didSucceed()`, `error?.message`, `results`,
`failedAddresses()`, `forceFail`, `queryErrors()`.
Modelled from the spec: `NetworkRunner.mjs` is not under `src/`; §6 of the
spec gives this exact observable surface (RunnerHandle). -/
structure RunnerState where
  didSucceed : Bool
  error : Option String
  results : List TxResult
  failedAddresses : List String
  forceFail : Bool
  queryErrors : List String
deriving DecidableEq

/-- What one attempt's `getNetworkRunner(data)` + `networkRunner.run(...)`
does.  Modelled from the spec: `Network.mjs`/`NetworkRunner.mjs` are not
under `src/`; per §6 construction yields a runner, a falsy "no eligible
work" value (`timeStamp(...)` returns `undefined`), or throws; `run`
either completes (leaving the runner in a final observable state) or
throws with a message. -/
inductive Attempt where
  | noRunner : Attempt
  | constructThrows : String → Attempt
  | runs : RunnerState → Attempt
  | runThrows : RunnerState → String → Attempt
deriving DecidableEq

/-- The `autostake` block of one network's configuration; `retries = none`
models an absent (or `null`) `retries` entry, matching the `??` default. -/
structure AutostakeConfig where
  retries : Option Nat
deriving DecidableEq

/-- One entry of the configured network list (`networks.json`), restricted
to the fields the orchestration core reads: `name`, `enabled`,
`autostake.retries`.  `enabled = none` models an absent flag. -/
structure NetworkConfig where
  name : String
  enabled : Option Bool
  autostake : Option AutostakeConfig
deriving DecidableEq

/-- `const maxRetries = data.autostake?.retries ?? 2` -/
def maxRetriesOf (data : NetworkConfig) : Nat :=
  (data.autostake.bind AutostakeConfig.retries).getD 2

/-- JS truthiness of a possibly-absent string (`undefined` and `""` are
falsy), used for `if (error)`, `if (message)` and `result.error`. -/
def jsTruthy : Option String → Bool
  | none => false
  | some s => s != ""

/-- `logSummary(health, networkRunner)`: the ordered lines it hands to
`health.log`.  Mirrors
`const errors = results.filter(result => result.error)`,
the `Sent X/Y transactions` line, and one `TX n: message` line per result
(`health.log` joins its arguments with a space). -/
def logSummary (results : List TxResult) : List String :=
  let errors := results.filter fun r => jsTruthy r.error
  ("Sent " ++ toString (results.length - errors.length) ++ "/" ++
      toString results.length ++ " transactions")
    :: (results.enum.map fun p => "TX " ++ toString (p.1 + 1) ++ ": " ++ p.2.message)

/-- Observable calls the core makes on its collaborators, in order.
Modelled from the spec: `Health.mjs` is not under `src/`; §4.4 specifies
it as a write-only accumulator (`started`/`log`/`addLogs` buffer lines,
`success`/`failed` set the terminal status, `sendLog` flushes), so each
call is recorded as one trace event.  `runCalled limit` records
`networkRunner.run(...)` with its restricted-target argument
(`none` = falsy, i.e. the unrestricted full target set). -/
inductive Event where
  | started : Event
  | runCalled : Option (List String) → Event
  | logLine : String → Event
  | sendLog : Event
  | healthSuccess : Event
  | healthFailed : Event
deriving DecidableEq

/-- `logResults(health, networkRunner, error, message)`: `addLogs(queryErrors())`,
the `logSummary` lines, the `Failed with error: ...` line when `error` is
truthy, the extra message when truthy, then one `sendLog()` flush. -/
def logResultsEvents (r : RunnerState) (error : Option String)
    (message : Option String) : List Event :=
  (r.queryErrors.map Event.logLine)
    ++ (logSummary r.results).map Event.logLine
    ++ (if jsTruthy error then [Event.logLine ("Failed with error: " ++ error.getD "")] else [])
    ++ (if jsTruthy message then [Event.logLine (message.getD "")] else [])
    ++ [Event.sendLog]

/-- The argument `index.mjs` passes to `networkRunner.run`:
`limitAddresses?.length && limitAddresses` where
`limitAddresses = lastRunner?.failedAddresses()`.  With no previous runner
the value is `undefined`; with an empty list it is `0`; both are falsy
(`none`).  Otherwise the non-empty list itself is passed. -/
def limitArg : Option RunnerState → Option (List String)
  | none => none
  | some r => if r.failedAddresses.length != 0 then some r.failedAddresses else none

/-- The interim log line
`Failed attempt ${retries + 1}/${maxRetries + 1}, retrying in 30 seconds...` -/
def failMessage (retries maxRetries : Nat) : String :=
  "Failed attempt " ++ toString (retries + 1) ++ "/" ++ toString (maxRetries + 1) ++
    ", retrying in 30 seconds..."

/-- How one invocation of `runWithRetry` returns to `run`:
`noWork` is the `return true` taken when `getNetworkRunner` yields no
runner; `history rs` is `return runners`; `threw msg` is an exception
escaping `runWithRetry` (in particular the `TypeError` raised by
dereferencing the absent `networkRunner` after `getNetworkRunner` threw —
either at `!networkRunner.forceFail` when budget remains, or at
`networkRunner.queryErrors()` inside `logResults` when it is exhausted;
both paths throw before emitting any health event). -/
inductive RetryOutcome where
  | noWork : RetryOutcome
  | history : List RunnerState → RetryOutcome
  | threw : String → RetryOutcome
deriving DecidableEq

/-- `runWithRetry(data, health, retries, runners)` with the runner factory
abstracted as `behavior : Nat → Attempt` (the attempt taken when the
`retries` counter has the given value) and `maxRetries` precomputed from
`data`.  Returns the JS return value together with the ordered trace of
collaborator calls.  The translation is branch for branch:

* `behavior retries = noRunner`: `if (!networkRunner) return true`.
* `constructThrows`: the `catch` sets `error`, then the absent
  `networkRunner` is dereferenced (see `RetryOutcome.threw`).
* `runs r`, `r.didSucceed`: `await logResults(health, networkRunner)` then
  `return runners` (with `r` pushed).
* `runs r`, failed, `retries < maxRetries && !forceFail`: interim
  `logResults` with `error?.message` and the retry message, then the
  recursive call on `retries + 1` with the pushed runner list.
* otherwise: terminal `logResults` with the error, `return runners`.
* `runThrows r msg`: as the failed cases with `error = e.message`. -/
def runWithRetry (behavior : Nat → Attempt) (maxRetries retries : Nat)
    (runners : List RunnerState) : RetryOutcome × List Event :=
  let lastRunner := runners.getLast?
  match behavior retries with
  | Attempt.noRunner => (RetryOutcome.noWork, [])
  | Attempt.constructThrows _ =>
      (RetryOutcome.threw "TypeError: Cannot read properties of undefined", [])
  | Attempt.runs r =>
      if r.didSucceed then
        (RetryOutcome.history (runners ++ [r]),
          Event.runCalled (limitArg lastRunner) :: logResultsEvents r none none)
      else
        if _h : retries < maxRetries ∧ r.forceFail = false then
          let res := runWithRetry behavior maxRetries (retries + 1) (runners ++ [r])
          (res.1,
            (Event.runCalled (limitArg lastRunner)
                :: logResultsEvents r r.error (some (failMessage retries maxRetries)))
              ++ res.2)
        else
          (RetryOutcome.history (runners ++ [r]),
            Event.runCalled (limitArg lastRunner) :: logResultsEvents r r.error none)
  | Attempt.runThrows r msg =>
      if _h : retries < maxRetries ∧ r.forceFail = false then
        let res := runWithRetry behavior maxRetries (retries + 1) (runners ++ [r])
        (res.1,
          (Event.runCalled (limitArg lastRunner)
              :: logResultsEvents r (some msg) (some (failMessage retries maxRetries)))
            ++ res.2)
      else
        (RetryOutcome.history (runners ++ [r]),
          Event.runCalled (limitArg lastRunner) :: logResultsEvents r (some msg) none)
termination_by maxRetries - retries
decreasing_by all_goals (simp_wf; omega)

/-- The restricted-target arguments passed to `networkRunner.run`, in attempt
order, extracted from a trace. -/
def runArgs (events : List Event) : List (Option (List String)) :=
  events.filterMap fun e =>
    match e with
    | Event.runCalled l => some l
    | _ => none

/-- Number of `health.sendLog()` flushes in a trace. -/
def countSendLog (events : List Event) : Nat :=
  events.countP fun e => e == Event.sendLog

/-- Number of terminal-status calls (`health.success` / `health.failed`) in a
trace. -/
def countTerminalMarks (events : List Event) : Nat :=
  events.countP fun e => e == Event.healthSuccess || e == Event.healthFailed

/-- The lines `run` logs after `runWithRetry` returns an array:
`Autostake completed in ${results.length} attempt(s)` followed, per attempt,
by `Attempt ${index + 1}:` and that attempt's `logSummary` lines. -/
def attemptSummaryEvents (rs : List RunnerState) : List Event :=
  Event.logLine ("Autostake completed in " ++ toString rs.length ++ " attempt(s)")
    :: (rs.enum.flatMap fun p =>
        Event.logLine ("Attempt " ++ toString (p.1 + 1) ++ ":")
          :: (logSummary p.2.results).map Event.logLine)

/-- How the per-network closure built in `run` ends: skipped before creating
the `Health` reporter, completed with `health.success`/`health.failed`, or
terminated by an exception escaping the closure (rejecting its promise). -/
inductive NetworkOutcome where
  | skipped : NetworkOutcome
  | completed : List Event → Bool → NetworkOutcome
  | raised : List Event → String → NetworkOutcome
deriving DecidableEq

/-- The health/runner events a per-network closure emitted. -/
def NetworkOutcome.events : NetworkOutcome → List Event
  | NetworkOutcome.skipped => []
  | NetworkOutcome.completed evs _ => evs
  | NetworkOutcome.raised evs _ => evs

/-- Did the closure reach a terminal `health.success`/`health.failed` call? -/
def NetworkOutcome.isCompleted : NetworkOutcome → Bool
  | NetworkOutcome.completed _ _ => true
  | _ => false

/-- The per-network closure `run` builds for one `data` entry, statement by
statement:

* `if (networkNames && networkNames.length && !networkNames.includes(data.name)) return`
  (inside the closure `networkNames` is the list `names`, which is truthy);
* `if (data.enabled === false) return`;
* `health.started('⚛')`, then `await runWithRetry(data, health)`;
* `if (Array.isArray(results))` log the attempt summaries;
* `const lastResult = results[results.length - 1]` and
  `lastResult.didSucceed()`: when `results` is the `true` sentinel
  (`RetryOutcome.noWork`) or an empty array, `lastResult` is `undefined`
  and the call raises a `TypeError`; when `runWithRetry` itself threw,
  that exception escapes the closure first;
* otherwise `health.success('Autostake finished')` or
  `health.failed('Autostake failed')`. -/
def processNetwork (names : List String) (behavior : Nat → Attempt)
    (data : NetworkConfig) : NetworkOutcome :=
  if names.length ≠ 0 ∧ ¬data.name ∈ names then NetworkOutcome.skipped
  else if data.enabled = some false then NetworkOutcome.skipped
  else
    let res := runWithRetry behavior (maxRetriesOf data) 0 []
    match res.1 with
    | RetryOutcome.threw msg => NetworkOutcome.raised (Event.started :: res.2) msg
    | RetryOutcome.noWork =>
        NetworkOutcome.raised (Event.started :: res.2)
          "TypeError: Cannot read properties of undefined"
    | RetryOutcome.history rs =>
        match rs.getLast? with
        | none =>
            NetworkOutcome.raised
              (Event.started :: res.2 ++ attemptSummaryEvents rs)
              "TypeError: Cannot read properties of undefined"
        | some last =>
            NetworkOutcome.completed
              (Event.started :: res.2 ++ attemptSummaryEvents rs
                ++ [if last.didSucceed then Event.healthSuccess else Event.healthFailed])
              last.didSucceed

/-- Result of one `run(networkNames)` invocation: `typeError` when
`networkNames` is absent (`for (const name of undefined)` raises),
`invalidName n` for the early `return timeStamp('Invalid network name:', n)`,
or the per-network outcomes. -/
inductive RunResult where
  | typeError : RunResult
  | invalidName : String → RunResult
  | executed : List NetworkOutcome → RunResult
deriving DecidableEq

/-- `async function run(networkNames)`.  The configured network list (read by
`getNetworksData()` from `src/networks.json`) is taken as the `networks`
parameter; the runner factory is the per-name oracle `behavior`.
Modelled from the spec: `executeSync` (`src/utils/Helpers.mjs`, not under
`src/`) runs the closures strictly sequentially with concurrency 1 (§2, §5),
so executing them all in list order is modelled by mapping `processNetwork`
over `networks`.

The validation loop `for (const name of networkNames) { if (name &&
!networks.map(el => el.name).includes(name)) return timeStamp(...) }`
returns at the first truthy name absent from the configured names; with
`networkNames` absent the `for...of` itself raises a `TypeError`. -/
def run (behavior : String → Nat → Attempt) (networks : List NetworkConfig) :
    Option (List String) → RunResult
  | none => RunResult.typeError
  | some names =>
    match names.find? (fun n => n != "" && !(networks.map NetworkConfig.name).contains n) with
    | some n => RunResult.invalidName n
    | none =>
        RunResult.executed
          (networks.map fun data => processNetwork names (behavior data.name) data)

/-- Written from the spec's words (§8, §3): the sequence of restricted-target
sets the spec prescribes for an attempt history — the first attempt gets the
unrestricted set (`none`); attempt `k+1` gets exactly attempt `k`'s
`failedAddresses()`, or the unrestricted set when that is empty. -/
def specNarrowing : Option RunnerState → List RunnerState → List (Option (List String))
  | _, [] => []
  | prev, r :: rest =>
      (match prev with
        | none => none
        | some p => if p.failedAddresses = [] then none else some p.failedAddresses)
        :: specNarrowing (some r) rest

/-- Written from the spec's words (§4.1, §6): a configured network is selected
for processing iff the filter is empty or contains its name, and its enabled
flag is not explicitly `false`. -/
def specSelected (names : List String) (data : NetworkConfig) : Prop :=
  (names = [] ∨ data.name ∈ names) ∧ data.enabled ≠ some false

instance (names : List String) (data : NetworkConfig) :
    Decidable (specSelected names data) := by
  unfold specSelected; infer_instance

/-! ### Branch equations for `runWithRetry` -/

lemma runWithRetry_noRunner {b : Nat → Attempt} {m retries : Nat}
    {runners : List RunnerState} (hb : b retries = Attempt.noRunner) :
    runWithRetry b m retries runners = (RetryOutcome.noWork, []) := by
  rw [runWithRetry]
  simp [hb]

lemma runWithRetry_constructThrows {b : Nat → Attempt} {m retries : Nat}
    {runners : List RunnerState} {msg : String}
    (hb : b retries = Attempt.constructThrows msg) :
    runWithRetry b m retries runners =
      (RetryOutcome.threw "TypeError: Cannot read properties of undefined", []) := by
  rw [runWithRetry]
  simp [hb]

lemma runWithRetry_runs_success {b : Nat → Attempt} {m retries : Nat}
    {runners : List RunnerState} {r : RunnerState}
    (hb : b retries = Attempt.runs r) (hs : r.didSucceed = true) :
    runWithRetry b m retries runners =
      (RetryOutcome.history (runners ++ [r]),
        Event.runCalled (limitArg runners.getLast?) :: logResultsEvents r none none) := by
  rw [runWithRetry]
  simp [hb, hs]

lemma runWithRetry_runs_retry {b : Nat → Attempt} {m retries : Nat}
    {runners : List RunnerState} {r : RunnerState}
    (hb : b retries = Attempt.runs r) (hs : r.didSucceed = false)
    (hlt : retries < m) (hff : r.forceFail = false) :
    runWithRetry b m retries runners =
      ((runWithRetry b m (retries + 1) (runners ++ [r])).1,
        (Event.runCalled (limitArg runners.getLast?)
            :: logResultsEvents r r.error (some (failMessage retries m)))
          ++ (runWithRetry b m (retries + 1) (runners ++ [r])).2) := by
  rw [runWithRetry]
  simp [hb, hs, hlt, hff]

lemma runWithRetry_runs_terminal {b : Nat → Attempt} {m retries : Nat}
    {runners : List RunnerState} {r : RunnerState}
    (hb : b retries = Attempt.runs r) (hs : r.didSucceed = false)
    (hterm : ¬(retries < m ∧ r.forceFail = false)) :
    runWithRetry b m retries runners =
      (RetryOutcome.history (runners ++ [r]),
        Event.runCalled (limitArg runners.getLast?) :: logResultsEvents r r.error none) := by
  rw [runWithRetry]
  simp [hb, hs, hterm]

lemma runWithRetry_runThrows_retry {b : Nat → Attempt} {m retries : Nat}
    {runners : List RunnerState} {r : RunnerState} {msg : String}
    (hb : b retries = Attempt.runThrows r msg)
    (hlt : retries < m) (hff : r.forceFail = false) :
    runWithRetry b m retries runners =
      ((runWithRetry b m (retries + 1) (runners ++ [r])).1,
        (Event.runCalled (limitArg runners.getLast?)
            :: logResultsEvents r (some msg) (some (failMessage retries m)))
          ++ (runWithRetry b m (retries + 1) (runners ++ [r])).2) := by
  rw [runWithRetry]
  simp [hb, hlt, hff]

lemma runWithRetry_runThrows_terminal {b : Nat → Attempt} {m retries : Nat}
    {runners : List RunnerState} {r : RunnerState} {msg : String}
    (hb : b retries = Attempt.runThrows r msg)
    (hterm : ¬(retries < m ∧ r.forceFail = false)) :
    runWithRetry b m retries runners =
      (RetryOutcome.history (runners ++ [r]),
        Event.runCalled (limitArg runners.getLast?)
          :: logResultsEvents r (some msg) none) := by
  rw [runWithRetry]
  simp [hb, hterm]

/-! ### Trace bookkeeping -/

lemma runArgs_append (a b : List Event) : runArgs (a ++ b) = runArgs a ++ runArgs b :=
  List.filterMap_append a b _

lemma countSendLog_append (a b : List Event) :
    countSendLog (a ++ b) = countSendLog a + countSendLog b :=
  List.countP_append _ a b

lemma countTerminalMarks_append (a b : List Event) :
    countTerminalMarks (a ++ b) = countTerminalMarks a + countTerminalMarks b :=
  List.countP_append _ a b

lemma runArgs_logLines (ls : List String) : runArgs (ls.map Event.logLine) = [] := by
  simp [runArgs]

lemma countSendLog_logLines (ls : List String) : countSendLog (ls.map Event.logLine) = 0 := by
  simp [countSendLog]

lemma countTerminalMarks_logLines (ls : List String) :
    countTerminalMarks (ls.map Event.logLine) = 0 := by
  simp [countTerminalMarks]

lemma runArgs_logResultsEvents (r : RunnerState) (e msg : Option String) :
    runArgs (logResultsEvents r e msg) = [] := by
  unfold logResultsEvents
  rw [runArgs_append, runArgs_append, runArgs_append, runArgs_append]
  rw [runArgs_logLines, runArgs_logLines]
  split <;> split <;> simp [runArgs]

lemma countSendLog_logResultsEvents (r : RunnerState) (e msg : Option String) :
    countSendLog (logResultsEvents r e msg) = 1 := by
  unfold logResultsEvents
  rw [countSendLog_append, countSendLog_append, countSendLog_append, countSendLog_append]
  rw [countSendLog_logLines, countSendLog_logLines]
  split <;> split <;> simp [countSendLog]

lemma countTerminalMarks_logResultsEvents (r : RunnerState) (e msg : Option String) :
    countTerminalMarks (logResultsEvents r e msg) = 0 := by
  unfold logResultsEvents
  rw [countTerminalMarks_append, countTerminalMarks_append, countTerminalMarks_append,
    countTerminalMarks_append]
  rw [countTerminalMarks_logLines, countTerminalMarks_logLines]
  split <;> split <;> simp [countTerminalMarks]

/-! ### Retry-controller inductions -/

/-- With a runner that is constructed on every attempt and always reports a
non-fatal failure, the controller returns the full history, one runner per
remaining attempt, and the final runner reports failure. -/
lemma runWithRetry_alwaysFail (b : Nat → Attempt) (m : Nat)
    (hb : ∀ k, ∃ r, b k = Attempt.runs r ∧ r.didSucceed = false ∧ r.forceFail = false) :
    ∀ (n retries : Nat) (runners : List RunnerState), m - retries = n →
      ∃ rs evs rl,
        runWithRetry b m retries runners = (RetryOutcome.history rs, evs) ∧
        rs.length = runners.length + n + 1 ∧
        rs.getLast? = some rl ∧ rl.didSucceed = false := by
  intro n
  induction n with
  | zero =>
      intro retries runners hn
      obtain ⟨r, hbr, hds, hff⟩ := hb retries
      have hge : m ≤ retries := by omega
      have hterm : ¬(retries < m ∧ r.forceFail = false) := fun hc =>
        Nat.not_lt.mpr hge hc.1
      exact ⟨runners ++ [r], _, r, runWithRetry_runs_terminal hbr hds hterm,
        by simp, List.getLast?_concat runners, hds⟩
  | succ n ih =>
      intro retries runners hn
      obtain ⟨r, hbr, hds, hff⟩ := hb retries
      have hlt : retries < m := by omega
      obtain ⟨rs, evs, rl, heq, hlen, hlast, hfail⟩ :=
        ih (retries + 1) (runners ++ [r]) (by omega)
      refine ⟨rs,
        (Event.runCalled (limitArg runners.getLast?)
            :: logResultsEvents r r.error (some (failMessage retries m))) ++ evs,
        rl, ?_, ?_, hlast, hfail⟩
      · rw [runWithRetry_runs_retry hbr hds hlt hff, heq]
      · simp only [List.length_append, List.length_singleton] at hlen
        omega

/-- The history returned by the controller never exceeds the remaining
budget plus one: at most one runner is pushed per attempt and the recursion
is guarded by `retries < maxRetries`. -/
lemma runWithRetry_history_length (b : Nat → Attempt) (m : Nat) :
    ∀ (n retries : Nat) (runners rs : List RunnerState) (evs : List Event),
      m - retries ≤ n →
      runWithRetry b m retries runners = (RetryOutcome.history rs, evs) →
      rs.length ≤ runners.length + n + 1 := by
  intro n
  induction n with
  | zero =>
      intro retries runners rs evs hn heq
      have hge : m ≤ retries := by omega
      have hterm : ∀ r : RunnerState, ¬(retries < m ∧ r.forceFail = false) := fun r hc =>
        Nat.not_lt.mpr hge hc.1
      cases hbr : b retries with
      | noRunner =>
          rw [runWithRetry_noRunner hbr] at heq
          simp at heq
      | constructThrows msg =>
          rw [runWithRetry_constructThrows hbr] at heq
          simp at heq
      | runs r =>
          by_cases hds : r.didSucceed = true
          · rw [runWithRetry_runs_success hbr hds] at heq
            simp only [Prod.mk.injEq, RetryOutcome.history.injEq] at heq
            simp [← heq.1]
          · rw [runWithRetry_runs_terminal hbr (by simpa using hds) (hterm r)] at heq
            simp only [Prod.mk.injEq, RetryOutcome.history.injEq] at heq
            simp [← heq.1]
      | runThrows r msg =>
          rw [runWithRetry_runThrows_terminal hbr (hterm r)] at heq
          simp only [Prod.mk.injEq, RetryOutcome.history.injEq] at heq
          simp [← heq.1]
  | succ n ih =>
      intro retries runners rs evs hn heq
      cases hbr : b retries with
      | noRunner =>
          rw [runWithRetry_noRunner hbr] at heq
          simp at heq
      | constructThrows msg =>
          rw [runWithRetry_constructThrows hbr] at heq
          simp at heq
      | runs r =>
          by_cases hds : r.didSucceed = true
          · rw [runWithRetry_runs_success hbr hds] at heq
            simp only [Prod.mk.injEq, RetryOutcome.history.injEq] at heq
            simp [← heq.1]
          · have hds' : r.didSucceed = false := by simpa using hds
            by_cases hc : retries < m ∧ r.forceFail = false
            · rw [runWithRetry_runs_retry hbr hds' hc.1 hc.2] at heq
              simp only [Prod.mk.injEq] at heq
              have hrec : runWithRetry b m (retries + 1) (runners ++ [r]) =
                  (RetryOutcome.history rs,
                    (runWithRetry b m (retries + 1) (runners ++ [r])).2) := by
                rw [← heq.1]
              have := ih (retries + 1) (runners ++ [r]) rs _ (by omega) hrec
              simp only [List.length_append, List.length_singleton] at this
              omega
            · rw [runWithRetry_runs_terminal hbr hds' hc] at heq
              simp only [Prod.mk.injEq, RetryOutcome.history.injEq] at heq
              simp [← heq.1]
      | runThrows r msg =>
          by_cases hc : retries < m ∧ r.forceFail = false
          · rw [runWithRetry_runThrows_retry hbr hc.1 hc.2] at heq
            simp only [Prod.mk.injEq] at heq
            have hrec : runWithRetry b m (retries + 1) (runners ++ [r]) =
                (RetryOutcome.history rs,
                  (runWithRetry b m (retries + 1) (runners ++ [r])).2) := by
              rw [← heq.1]
            have := ih (retries + 1) (runners ++ [r]) rs _ (by omega) hrec
            simp only [List.length_append, List.length_singleton] at this
            omega
          · rw [runWithRetry_runThrows_terminal hbr hc] at heq
            simp only [Prod.mk.injEq, RetryOutcome.history.injEq] at heq
            simp [← heq.1]

/-- After a run of non-fatal failed attempts, a failed attempt whose runner
sets `forceFail` ends the recursion at once: the history holds exactly the
attempts made so far. -/
lemma runWithRetry_forceFail (b : Nat → Attempt) (m j : Nat)
    (hpre : ∀ i, i < j → ∃ r, b i = Attempt.runs r ∧ r.didSucceed = false ∧ r.forceFail = false)
    (r : RunnerState) (hbj : b j = Attempt.runs r) (hds : r.didSucceed = false)
    (hff : r.forceFail = true) (hjm : j < m) :
    ∀ (d retries : Nat) (runners : List RunnerState), retries + d = j →
      ∃ rs evs, runWithRetry b m retries runners = (RetryOutcome.history rs, evs) ∧
        rs.length = runners.length + d + 1 := by
  intro d
  induction d with
  | zero =>
      intro retries runners hj
      have hj' : retries = j := by omega
      subst hj'
      have hterm : ¬(retries < m ∧ r.forceFail = false) := fun hc => by
        rw [hff] at hc
        exact absurd hc.2 (by simp)
      exact ⟨runners ++ [r], _, runWithRetry_runs_terminal hbj hds hterm, by simp⟩
  | succ d ih =>
      intro retries runners hj
      have hi : retries < j := by omega
      obtain ⟨r', hbr', hds', hff'⟩ := hpre retries hi
      obtain ⟨rs, evs, heq, hlen⟩ := ih (retries + 1) (runners ++ [r']) (by omega)
      refine ⟨rs,
        (Event.runCalled (limitArg runners.getLast?)
            :: logResultsEvents r' r'.error (some (failMessage retries m))) ++ evs,
        ?_, ?_⟩
      · rw [runWithRetry_runs_retry hbr' hds' (Nat.lt_trans hi hjm) hff', heq]
      · simp only [List.length_append, List.length_singleton] at hlen
        omega

lemma runArgs_runCalled_cons (l : Option (List String)) (tail : List Event) :
    runArgs (Event.runCalled l :: tail) = l :: runArgs tail := by
  simp [runArgs]

lemma countSendLog_runCalled_cons (l : Option (List String)) (tail : List Event) :
    countSendLog (Event.runCalled l :: tail) = countSendLog tail := by
  simp [countSendLog]

lemma countTerminalMarks_runCalled_cons (l : Option (List String)) (tail : List Event) :
    countTerminalMarks (Event.runCalled l :: tail) = countTerminalMarks tail := by
  simp [countTerminalMarks]

/-- The code's `limitAddresses?.length && limitAddresses` computes exactly the
spec's narrowing rule: previous attempt's failed addresses, or the
unrestricted set when there is no previous attempt or none failed. -/
lemma limitArg_spec (prev : Option RunnerState) :
    limitArg prev = (match prev with
      | none => none
      | some p => if p.failedAddresses = [] then none else some p.failedAddresses) := by
  cases prev with
  | none => rfl
  | some p =>
      by_cases h : p.failedAddresses = [] <;>
        simp [limitArg, h, List.length_eq_zero]

lemma specNarrowing_singleton (prev : Option RunnerState) (r : RunnerState) :
    specNarrowing prev [r] = [limitArg prev] := by
  rw [limitArg_spec]
  rfl

lemma specNarrowing_cons (prev : Option RunnerState) (r : RunnerState)
    (rest : List RunnerState) :
    specNarrowing prev (r :: rest) = limitArg prev :: specNarrowing (some r) rest := by
  rw [limitArg_spec]
  rfl

/-- The restricted-target arguments actually passed across a terminating
retry sequence follow the spec's narrowing sequence for the returned
history. -/
lemma runWithRetry_runArgs (b : Nat → Attempt) (m : Nat) :
    ∀ (n retries : Nat) (runners rs : List RunnerState) (evs : List Event),
      m - retries ≤ n →
      runWithRetry b m retries runners = (RetryOutcome.history rs, evs) →
      ∃ suffix, rs = runners ++ suffix ∧
        runArgs evs = specNarrowing runners.getLast? suffix := by
  intro n
  induction n with
  | zero =>
      intro retries runners rs evs hn heq
      have hge : m ≤ retries := by omega
      have hterm : ∀ r : RunnerState, ¬(retries < m ∧ r.forceFail = false) := fun r hc =>
        Nat.not_lt.mpr hge hc.1
      cases hbr : b retries with
      | noRunner =>
          rw [runWithRetry_noRunner hbr] at heq
          simp at heq
      | constructThrows msg =>
          rw [runWithRetry_constructThrows hbr] at heq
          simp at heq
      | runs r =>
          by_cases hds : r.didSucceed = true
          · rw [runWithRetry_runs_success hbr hds] at heq
            simp only [Prod.mk.injEq, RetryOutcome.history.injEq] at heq
            refine ⟨[r], heq.1.symm, ?_⟩
            rw [← heq.2, runArgs_runCalled_cons, runArgs_logResultsEvents,
              specNarrowing_singleton]
          · rw [runWithRetry_runs_terminal hbr (by simpa using hds) (hterm r)] at heq
            simp only [Prod.mk.injEq, RetryOutcome.history.injEq] at heq
            refine ⟨[r], heq.1.symm, ?_⟩
            rw [← heq.2, runArgs_runCalled_cons, runArgs_logResultsEvents,
              specNarrowing_singleton]
      | runThrows r msg =>
          rw [runWithRetry_runThrows_terminal hbr (hterm r)] at heq
          simp only [Prod.mk.injEq, RetryOutcome.history.injEq] at heq
          refine ⟨[r], heq.1.symm, ?_⟩
          rw [← heq.2, runArgs_runCalled_cons, runArgs_logResultsEvents,
            specNarrowing_singleton]
  | succ n ih =>
      intro retries runners rs evs hn heq
      cases hbr : b retries with
      | noRunner =>
          rw [runWithRetry_noRunner hbr] at heq
          simp at heq
      | constructThrows msg =>
          rw [runWithRetry_constructThrows hbr] at heq
          simp at heq
      | runs r =>
          by_cases hds : r.didSucceed = true
          · rw [runWithRetry_runs_success hbr hds] at heq
            simp only [Prod.mk.injEq, RetryOutcome.history.injEq] at heq
            refine ⟨[r], heq.1.symm, ?_⟩
            rw [← heq.2, runArgs_runCalled_cons, runArgs_logResultsEvents,
              specNarrowing_singleton]
          · have hds' : r.didSucceed = false := by simpa using hds
            by_cases hc : retries < m ∧ r.forceFail = false
            · rw [runWithRetry_runs_retry hbr hds' hc.1 hc.2] at heq
              simp only [Prod.mk.injEq] at heq
              have hrec : runWithRetry b m (retries + 1) (runners ++ [r]) =
                  (RetryOutcome.history rs,
                    (runWithRetry b m (retries + 1) (runners ++ [r])).2) := by
                rw [← heq.1]
              obtain ⟨suffix, hsuf, hargs⟩ := ih (retries + 1) (runners ++ [r]) rs _
                (by omega) hrec
              refine ⟨r :: suffix, by simpa using hsuf, ?_⟩
              rw [List.getLast?_concat] at hargs
              rw [← heq.2, runArgs_append, runArgs_runCalled_cons,
                runArgs_logResultsEvents, hargs, specNarrowing_cons]
              simp
            · rw [runWithRetry_runs_terminal hbr hds' hc] at heq
              simp only [Prod.mk.injEq, RetryOutcome.history.injEq] at heq
              refine ⟨[r], heq.1.symm, ?_⟩
              rw [← heq.2, runArgs_runCalled_cons, runArgs_logResultsEvents,
                specNarrowing_singleton]
      | runThrows r msg =>
          by_cases hc : retries < m ∧ r.forceFail = false
          · rw [runWithRetry_runThrows_retry hbr hc.1 hc.2] at heq
            simp only [Prod.mk.injEq] at heq
            have hrec : runWithRetry b m (retries + 1) (runners ++ [r]) =
                (RetryOutcome.history rs,
                  (runWithRetry b m (retries + 1) (runners ++ [r])).2) := by
              rw [← heq.1]
            obtain ⟨suffix, hsuf, hargs⟩ := ih (retries + 1) (runners ++ [r]) rs _
              (by omega) hrec
            refine ⟨r :: suffix, by simpa using hsuf, ?_⟩
            rw [List.getLast?_concat] at hargs
            rw [← heq.2, runArgs_append, runArgs_runCalled_cons,
              runArgs_logResultsEvents, hargs, specNarrowing_cons]
            simp
          · rw [runWithRetry_runThrows_terminal hbr hc] at heq
            simp only [Prod.mk.injEq, RetryOutcome.history.injEq] at heq
            refine ⟨[r], heq.1.symm, ?_⟩
            rw [← heq.2, runArgs_runCalled_cons, runArgs_logResultsEvents,
              specNarrowing_singleton]

/-- One `sendLog` flush per attempt: a terminating retry sequence flushes
exactly as many times as it made attempts. -/
lemma runWithRetry_countSendLog (b : Nat → Attempt) (m : Nat) :
    ∀ (n retries : Nat) (runners rs : List RunnerState) (evs : List Event),
      m - retries ≤ n →
      runWithRetry b m retries runners = (RetryOutcome.history rs, evs) →
      countSendLog evs + runners.length = rs.length := by
  intro n
  induction n with
  | zero =>
      intro retries runners rs evs hn heq
      have hge : m ≤ retries := by omega
      have hterm : ∀ r : RunnerState, ¬(retries < m ∧ r.forceFail = false) := fun r hc =>
        Nat.not_lt.mpr hge hc.1
      cases hbr : b retries with
      | noRunner =>
          rw [runWithRetry_noRunner hbr] at heq
          simp at heq
      | constructThrows msg =>
          rw [runWithRetry_constructThrows hbr] at heq
          simp at heq
      | runs r =>
          by_cases hds : r.didSucceed = true
          · rw [runWithRetry_runs_success hbr hds] at heq
            simp only [Prod.mk.injEq, RetryOutcome.history.injEq] at heq
            rw [← heq.2, ← heq.1, countSendLog_runCalled_cons,
              countSendLog_logResultsEvents]
            simp [Nat.add_comm]
          · rw [runWithRetry_runs_terminal hbr (by simpa using hds) (hterm r)] at heq
            simp only [Prod.mk.injEq, RetryOutcome.history.injEq] at heq
            rw [← heq.2, ← heq.1, countSendLog_runCalled_cons,
              countSendLog_logResultsEvents]
            simp [Nat.add_comm]
      | runThrows r msg =>
          rw [runWithRetry_runThrows_terminal hbr (hterm r)] at heq
          simp only [Prod.mk.injEq, RetryOutcome.history.injEq] at heq
          rw [← heq.2, ← heq.1, countSendLog_runCalled_cons,
            countSendLog_logResultsEvents]
          simp [Nat.add_comm]
  | succ n ih =>
      intro retries runners rs evs hn heq
      cases hbr : b retries with
      | noRunner =>
          rw [runWithRetry_noRunner hbr] at heq
          simp at heq
      | constructThrows msg =>
          rw [runWithRetry_constructThrows hbr] at heq
          simp at heq
      | runs r =>
          by_cases hds : r.didSucceed = true
          · rw [runWithRetry_runs_success hbr hds] at heq
            simp only [Prod.mk.injEq, RetryOutcome.history.injEq] at heq
            rw [← heq.2, ← heq.1, countSendLog_runCalled_cons,
              countSendLog_logResultsEvents]
            simp [Nat.add_comm]
          · have hds' : r.didSucceed = false := by simpa using hds
            by_cases hc : retries < m ∧ r.forceFail = false
            · rw [runWithRetry_runs_retry hbr hds' hc.1 hc.2] at heq
              simp only [Prod.mk.injEq] at heq
              have hrec : runWithRetry b m (retries + 1) (runners ++ [r]) =
                  (RetryOutcome.history rs,
                    (runWithRetry b m (retries + 1) (runners ++ [r])).2) := by
                rw [← heq.1]
              have hih := ih (retries + 1) (runners ++ [r]) rs _ (by omega) hrec
              rw [← heq.2, countSendLog_append, countSendLog_runCalled_cons,
                countSendLog_logResultsEvents]
              simp only [List.length_append, List.length_singleton] at hih
              omega
            · rw [runWithRetry_runs_terminal hbr hds' hc] at heq
              simp only [Prod.mk.injEq, RetryOutcome.history.injEq] at heq
              rw [← heq.2, ← heq.1, countSendLog_runCalled_cons,
                countSendLog_logResultsEvents]
              simp [Nat.add_comm]
      | runThrows r msg =>
          by_cases hc : retries < m ∧ r.forceFail = false
          · rw [runWithRetry_runThrows_retry hbr hc.1 hc.2] at heq
            simp only [Prod.mk.injEq] at heq
            have hrec : runWithRetry b m (retries + 1) (runners ++ [r]) =
                (RetryOutcome.history rs,
                  (runWithRetry b m (retries + 1) (runners ++ [r])).2) := by
              rw [← heq.1]
            have hih := ih (retries + 1) (runners ++ [r]) rs _ (by omega) hrec
            rw [← heq.2, countSendLog_append, countSendLog_runCalled_cons,
              countSendLog_logResultsEvents]
            simp only [List.length_append, List.length_singleton] at hih
            omega
          · rw [runWithRetry_runThrows_terminal hbr hc] at heq
            simp only [Prod.mk.injEq, RetryOutcome.history.injEq] at heq
            rw [← heq.2, ← heq.1, countSendLog_runCalled_cons,
              countSendLog_logResultsEvents]
            simp [Nat.add_comm]

/-- The retry controller itself never calls `health.success`/`health.failed`;
those terminal marks are `run`'s. -/
lemma runWithRetry_countTerminalMarks (b : Nat → Attempt) (m : Nat) :
    ∀ (n retries : Nat) (runners : List RunnerState), m - retries ≤ n →
      countTerminalMarks (runWithRetry b m retries runners).2 = 0 := by
  intro n
  induction n with
  | zero =>
      intro retries runners hn
      have hge : m ≤ retries := by omega
      have hterm : ∀ r : RunnerState, ¬(retries < m ∧ r.forceFail = false) := fun r hc =>
        Nat.not_lt.mpr hge hc.1
      cases hbr : b retries with
      | noRunner => rw [runWithRetry_noRunner hbr]; rfl
      | constructThrows msg => rw [runWithRetry_constructThrows hbr]; rfl
      | runs r =>
          by_cases hds : r.didSucceed = true
          · rw [runWithRetry_runs_success hbr hds]
            simp [countTerminalMarks_runCalled_cons, countTerminalMarks_logResultsEvents]
          · rw [runWithRetry_runs_terminal hbr (by simpa using hds) (hterm r)]
            simp [countTerminalMarks_runCalled_cons, countTerminalMarks_logResultsEvents]
      | runThrows r msg =>
          rw [runWithRetry_runThrows_terminal hbr (hterm r)]
          simp [countTerminalMarks_runCalled_cons, countTerminalMarks_logResultsEvents]
  | succ n ih =>
      intro retries runners hn
      cases hbr : b retries with
      | noRunner => rw [runWithRetry_noRunner hbr]; rfl
      | constructThrows msg => rw [runWithRetry_constructThrows hbr]; rfl
      | runs r =>
          by_cases hds : r.didSucceed = true
          · rw [runWithRetry_runs_success hbr hds]
            simp [countTerminalMarks_runCalled_cons, countTerminalMarks_logResultsEvents]
          · have hds' : r.didSucceed = false := by simpa using hds
            by_cases hc : retries < m ∧ r.forceFail = false
            · rw [runWithRetry_runs_retry hbr hds' hc.1 hc.2]
              simp only [countTerminalMarks_append, countTerminalMarks_runCalled_cons,
                countTerminalMarks_logResultsEvents]
              rw [ih (retries + 1) (runners ++ [r]) (by omega)]
            · rw [runWithRetry_runs_terminal hbr hds' hc]
              simp [countTerminalMarks_runCalled_cons, countTerminalMarks_logResultsEvents]
      | runThrows r msg =>
          by_cases hc : retries < m ∧ r.forceFail = false
          · rw [runWithRetry_runThrows_retry hbr hc.1 hc.2]
            simp only [countTerminalMarks_append, countTerminalMarks_runCalled_cons,
              countTerminalMarks_logResultsEvents]
            rw [ih (retries + 1) (runners ++ [r]) (by omega)]
          · rw [runWithRetry_runThrows_terminal hbr hc]
            simp [countTerminalMarks_runCalled_cons, countTerminalMarks_logResultsEvents]

lemma countTerminalMarks_attemptSummaryEvents (rs : List RunnerState) :
    countTerminalMarks (attemptSummaryEvents rs) = 0 := by
  unfold attemptSummaryEvents
  rw [show ∀ x l, countTerminalMarks (Event.logLine x :: l) = countTerminalMarks l from
    fun x l => by simp [countTerminalMarks]]
  induction rs.enum with
  | nil => rfl
  | cons p ps ih =>
      rw [List.flatMap_cons, countTerminalMarks_append]
      rw [show ∀ x l, countTerminalMarks (Event.logLine x :: l) = countTerminalMarks l from
        fun x l => by simp [countTerminalMarks]]
      rw [countTerminalMarks_logLines, ih]

/-! ### Scheduler-level facts -/

/-- A network filtered out by name or disabled is skipped before any runner
construction: the outcome is `skipped` for every runner behavior. -/
lemma processNetwork_skip {names : List String} {data : NetworkConfig}
    (hns : ¬specSelected names data) (b : Nat → Attempt) :
    processNetwork names b data = NetworkOutcome.skipped := by
  by_cases h1 : names.length ≠ 0 ∧ ¬data.name ∈ names
  · unfold processNetwork
    rw [if_pos h1]
  · have h2 : data.enabled = some false := by
      rcases not_and_or.mp h1 with h | h
      · by_contra hne
        exact hns ⟨Or.inl (List.length_eq_zero.mp (not_ne_iff.mp h)), hne⟩
      · by_contra hne
        exact hns ⟨Or.inr (not_not.mp h), hne⟩
    unfold processNetwork
    rw [if_neg h1, if_pos h2]

/-- A selected network is never skipped: its closure reaches
`health.started` and ends in a completion or a raised exception. -/
lemma processNetwork_not_skipped {names : List String} {data : NetworkConfig}
    (hs : specSelected names data) (b : Nat → Attempt) :
    processNetwork names b data ≠ NetworkOutcome.skipped := by
  have h1 : ¬(names.length ≠ 0 ∧ ¬data.name ∈ names) := by
    rcases hs.1 with h | h
    · intro hcon
      exact hcon.1 (by simp [h])
    · intro hcon
      exact hcon.2 h
  unfold processNetwork
  rw [if_neg h1, if_neg hs.2]
  rcases hout : (runWithRetry b (maxRetriesOf data) 0 []).1 with _ | rs | msg
  · simp [hout]
  · rcases hlast : rs.getLast? with _ | last <;> simp [hout, hlast]
  · simp [hout]

/-- A completed per-network closure called `health.success`/`health.failed`
exactly once. -/
lemma processNetwork_terminalMarks {names : List String} {b : Nat → Attempt}
    {data : NetworkConfig} {evs : List Event} {succeeded : Bool}
    (hc : processNetwork names b data = NetworkOutcome.completed evs succeeded) :
    countTerminalMarks evs = 1 := by
  unfold processNetwork at hc
  by_cases h1 : names.length ≠ 0 ∧ ¬data.name ∈ names
  · rw [if_pos h1] at hc
    exact absurd hc (by simp)
  rw [if_neg h1] at hc
  by_cases h2 : data.enabled = some false
  · rw [if_pos h2] at hc
    exact absurd hc (by simp)
  rw [if_neg h2] at hc
  simp only [] at hc
  rcases hout : (runWithRetry b (maxRetriesOf data) 0 []).1 with _ | rs | msg <;>
    simp only [hout] at hc
  · exact absurd hc (by simp)
  · rcases hlast : rs.getLast? with _ | last <;> simp only [hlast] at hc
    · exact absurd hc (by simp)
    · simp only [NetworkOutcome.completed.injEq] at hc
      rw [← hc.1]
      have hretry : countTerminalMarks (runWithRetry b (maxRetriesOf data) 0 []).2 = 0 :=
        runWithRetry_countTerminalMarks b (maxRetriesOf data) (maxRetriesOf data) 0 []
          (by omega)
      rw [countTerminalMarks_append, countTerminalMarks_append]
      rw [show ∀ l, countTerminalMarks (Event.started :: l) = countTerminalMarks l from
        fun l => by simp [countTerminalMarks]]
      rw [hretry, countTerminalMarks_attemptSummaryEvents]
      cases last.didSucceed <;> simp [countTerminalMarks]
  · exact absurd hc (by simp)

lemma countSendLog_attemptSummaryEvents (rs : List RunnerState) :
    countSendLog (attemptSummaryEvents rs) = 0 := by
  unfold attemptSummaryEvents
  rw [show ∀ x l, countSendLog (Event.logLine x :: l) = countSendLog l from
    fun x l => by simp [countSendLog]]
  induction rs.enum with
  | nil => rfl
  | cons p ps ih =>
      rw [List.flatMap_cons, countSendLog_append]
      rw [show ∀ x l, countSendLog (Event.logLine x :: l) = countSendLog l from
        fun x l => by simp [countSendLog]]
      rw [countSendLog_logLines, ih]

lemma specNarrowing_head {rs : List RunnerState} (prev : Option RunnerState)
    (hne : rs ≠ []) : (specNarrowing prev rs)[0]? = some (limitArg prev) := by
  cases rs with
  | nil => exact absurd rfl hne
  | cons r rest => rw [specNarrowing_cons]; simp

lemma specNarrowing_getElem?_succ :
    ∀ (rs : List RunnerState) (prev : Option RunnerState) (k : Nat) (r : RunnerState),
      rs[k]? = some r → k + 1 < rs.length →
      (specNarrowing prev rs)[k + 1]? =
        some (if r.failedAddresses = [] then none else some r.failedAddresses) := by
  intro rs
  induction rs with
  | nil =>
      intro prev k r hk _
      simp at hk
  | cons x rest ih =>
      intro prev k r hk hlt
      cases k with
      | zero =>
          have hx : x = r := by simpa using hk
          subst hx
          cases rest with
          | nil => simp at hlt
          | cons y rest2 =>
              rw [specNarrowing_cons]
              simp only [List.getElem?_cons_succ]
              rw [specNarrowing_cons]
              simp [limitArg_spec]
      | succ k2 =>
          rw [specNarrowing_cons]
          simp only [List.getElem?_cons_succ]
          exact ih (some x) k2 r (by simpa using hk) (by simpa using hlt)

/-- With every requested name either falsy or configured, the validation loop
falls through and every network's closure is executed in order. -/
lemma run_executed {b : String → Nat → Attempt} {networks : List NetworkConfig}
    {names : List String}
    (hvalid : ∀ nm ∈ names, nm = "" ∨ nm ∈ networks.map NetworkConfig.name) :
    run b networks (some names) =
      RunResult.executed
        (networks.map fun data => processNetwork names (b data.name) data) := by
  simp only [run]
  have hfind : names.find?
      (fun n => n != "" && !(networks.map NetworkConfig.name).contains n) = none := by
    apply List.find?_eq_none.mpr
    intro n hn
    rcases hvalid n hn with h | h
    · simp [h]
    · simp [h]
  rw [hfind]

/-- A truthy requested name that is not a configured name makes the
validation loop return early, for every runner behavior: no network is
processed. -/
lemma run_invalidName {networks : List NetworkConfig} {names : List String}
    (h : ∃ nm ∈ names, nm ≠ "" ∧ nm ∉ networks.map NetworkConfig.name) :
    ∃ n0, ∀ b : String → Nat → Attempt,
      run b networks (some names) = RunResult.invalidName n0 := by
  have hsome : (names.find?
      (fun n => n != "" && !(networks.map NetworkConfig.name).contains n)).isSome := by
    rw [List.find?_isSome]
    obtain ⟨nm, hmem, hne, hnotin⟩ := h
    exact ⟨nm, hmem, by simp [hne, hnotin]⟩
  obtain ⟨n0, hn0⟩ := Option.isSome_iff_exists.mp hsome
  refine ⟨n0, fun b => ?_⟩
  simp only [run]
  rw [hn0]

/-! ### Concrete fixtures for witnesses and counterexamples -/

/-- A runner that completes `run()` but reports a non-fatal failure. -/
def failingRunner : RunnerState :=
  { didSucceed := false, error := some "delegation failed", results := [],
    failedAddresses := [], forceFail := false, queryErrors := [] }

/-- A runner that reports a fatal (`forceFail`) failure. -/
def fatalRunner : RunnerState :=
  { didSucceed := false, error := some "balance too low", results := [],
    failedAddresses := [], forceFail := true, queryErrors := [] }

/-- Every attempt constructs a runner that fails non-fatally. -/
def alwaysFailBehavior : Nat → Attempt := fun _ => Attempt.runs failingRunner

/-- First attempt fails non-fatally, second attempt force-fails. -/
def fatalSecondBehavior : Nat → Attempt := fun k =>
  if k = 0 then Attempt.runs failingRunner else Attempt.runs fatalRunner

/-- Every attempt finds no eligible work (`getNetworkRunner` returns no
runner, e.g. the bot address is not an operator). -/
def noRunnerBehavior : Nat → Attempt := fun _ => Attempt.noRunner

/-- Every attempt's `getNetworkRunner` throws (e.g. network data fails to
load). -/
def throwingBehavior : Nat → Attempt := fun _ =>
  Attempt.constructThrows "Unable to load network data for"

/-- The spec's example results `[{message:"a"},{message:"b",error:"x"}]`. -/
def txA : TxResult := { message := "a", error := none }

def txB : TxResult := { message := "b", error := some "x" }

def alphaNet : NetworkConfig :=
  { name := "alpha", enabled := none, autostake := some { retries := some 1 } }

def bravoNet : NetworkConfig :=
  { name := "bravo", enabled := none, autostake := none }

def charlieNet : NetworkConfig :=
  { name := "charlie", enabled := some false, autostake := none }

/-! ### Claims -/

/-- C1: for every retry ceiling `m ≥ 0`, a network whose runner exists on
every attempt and always reports failure with `forceFail=false` produces
exactly `m+1` attempts (the history has length `m+1`) and terminates as a
failure; and in general the attempt history of a network never exceeds
`maxRetries + 1` entries. -/
theorem C1_retry_exhaustion (b : Nat → Attempt) (m : Nat)
    (hb : ∀ k, ∃ r, b k = Attempt.runs r ∧ r.didSucceed = false ∧ r.forceFail = false) :
    (∃ rs evs rl, runWithRetry b m 0 [] = (RetryOutcome.history rs, evs) ∧
        rs.length = m + 1 ∧ rs.getLast? = some rl ∧ rl.didSucceed = false) ∧
    (∀ (b2 : Nat → Attempt) (rs : List RunnerState) (evs : List Event),
        runWithRetry b2 m 0 [] = (RetryOutcome.history rs, evs) → rs.length ≤ m + 1) := by
  constructor
  · obtain ⟨rs, evs, rl, heq, hlen, hlast, hf⟩ :=
      runWithRetry_alwaysFail b m hb m 0 [] rfl
    exact ⟨rs, evs, rl, heq, by simpa using hlen, hlast, hf⟩
  · intro b2 rs evs heq
    have := runWithRetry_history_length b2 m m 0 [] rs evs (by omega) heq
    simpa using this

theorem C1_retry_exhaustion_witness :
    (∃ rs evs rl, runWithRetry alwaysFailBehavior 2 0 [] = (RetryOutcome.history rs, evs) ∧
        rs.length = 2 + 1 ∧ rs.getLast? = some rl ∧ rl.didSucceed = false) ∧
    (∀ (b2 : Nat → Attempt) (rs : List RunnerState) (evs : List Event),
        runWithRetry b2 2 0 [] = (RetryOutcome.history rs, evs) → rs.length ≤ 2 + 1) :=
  C1_retry_exhaustion alwaysFailBehavior 2
    (fun _ => ⟨failingRunner, rfl, rfl, rfl⟩)

/-- C2: across a terminating retry sequence, the restricted target set passed
to attempt `k+1` is exactly attempt `k`'s `failedAddresses()` (the
unrestricted full set when that list is empty), and the first attempt runs
unrestricted — the whole argument sequence equals the spec's narrowing
sequence, so no argument is derived from an earlier attempt. -/
theorem C2_narrowing (b : Nat → Attempt) (m : Nat) (rs : List RunnerState)
    (evs : List Event)
    (hrun : runWithRetry b m 0 [] = (RetryOutcome.history rs, evs)) :
    runArgs evs = specNarrowing none rs ∧
    (rs ≠ [] → (runArgs evs)[0]? = some none) ∧
    (∀ k r, rs[k]? = some r → k + 1 < rs.length →
      (runArgs evs)[k + 1]? =
        some (if r.failedAddresses = [] then none else some r.failedAddresses)) := by
  obtain ⟨suffix, hsuf, hargs⟩ := runWithRetry_runArgs b m m 0 [] rs evs (by omega) hrun
  have hsx : rs = suffix := by simpa using hsuf
  subst hsx
  rw [show ([] : List RunnerState).getLast? = none from rfl] at hargs
  refine ⟨hargs, fun hne => ?_, fun k r hk hlt => ?_⟩
  · rw [hargs, specNarrowing_head none hne]
    rfl
  · rw [hargs]
    exact specNarrowing_getElem?_succ rs none k r hk hlt

theorem C2_narrowing_witness :
    ∃ rs evs, runWithRetry alwaysFailBehavior 1 0 [] = (RetryOutcome.history rs, evs) ∧
      (runArgs evs = specNarrowing none rs ∧
      (rs ≠ [] → (runArgs evs)[0]? = some none) ∧
      (∀ k r, rs[k]? = some r → k + 1 < rs.length →
        (runArgs evs)[k + 1]? =
          some (if r.failedAddresses = [] then none else some r.failedAddresses))) := by
  obtain ⟨rs, evs, rl, heq, _, _, _⟩ :=
    runWithRetry_alwaysFail alwaysFailBehavior 1
      (fun _ => ⟨failingRunner, rfl, rfl, rfl⟩) 1 0 [] rfl
  exact ⟨rs, evs, heq, C2_narrowing alwaysFailBehavior 1 rs evs heq⟩

/-- C3: if the attempts before 0-based attempt index `j` all fail
non-fatally and attempt `j` (1-based attempt `k = j+1 ≤ maxRetries`) fails
with `forceFail = true`, the retry sequence ends at once with exactly `j+1`
runners in the history — attempt `j+1` never happens despite remaining
budget. -/
theorem C3_force_fail_stops (b : Nat → Attempt) (m j : Nat) (hjm : j < m)
    (hpre : ∀ i, i < j →
      ∃ r, b i = Attempt.runs r ∧ r.didSucceed = false ∧ r.forceFail = false)
    (r : RunnerState) (hbj : b j = Attempt.runs r) (hds : r.didSucceed = false)
    (hff : r.forceFail = true) :
    ∃ rs evs, runWithRetry b m 0 [] = (RetryOutcome.history rs, evs) ∧
      rs.length = j + 1 := by
  obtain ⟨rs, evs, heq, hlen⟩ :=
    runWithRetry_forceFail b m j hpre r hbj hds hff hjm j 0 [] (by omega)
  exact ⟨rs, evs, heq, by simpa using hlen⟩

theorem C3_force_fail_stops_witness :
    ∃ rs evs, runWithRetry fatalSecondBehavior 3 0 [] = (RetryOutcome.history rs, evs) ∧
      rs.length = 1 + 1 :=
  C3_force_fail_stops fatalSecondBehavior 3 1 (by omega)
    (fun i hi => ⟨failingRunner, by
      have h0 : i = 0 := by omega
      subst h0
      rfl, rfl, rfl⟩)
    fatalRunner rfl rfl rfl

/-- C6: contrary to the claim, when runner construction throws and no runner
instance exists, the controller does dereference the absent runner: with
remaining budget (`maxRetries = 2`, first attempt) the `!networkRunner.forceFail`
test raises a `TypeError`, and with exhausted budget (`maxRetries = 0`) the
terminal `logResults` call raises it from `networkRunner.queryErrors()`; in
both cases the exception escapes `runWithRetry` before any health event. -/
theorem C6_absent_runner_dereferenced :
    runWithRetry throwingBehavior 2 0 [] =
      (RetryOutcome.threw "TypeError: Cannot read properties of undefined", []) ∧
    runWithRetry throwingBehavior 0 0 [] =
      (RetryOutcome.threw "TypeError: Cannot read properties of undefined", []) :=
  ⟨runWithRetry_constructThrows rfl, runWithRetry_constructThrows rfl⟩

/-- C10: a network configuration without an `autostake.retries` value gets
the default retry ceiling 2, and any attempt history returned for it has at
most 3 entries. -/
theorem C10_default_retries (data : NetworkConfig) (b : Nat → Attempt)
    (hd : data.autostake.bind AutostakeConfig.retries = none) :
    maxRetriesOf data = 2 ∧
    ∀ (rs : List RunnerState) (evs : List Event),
      runWithRetry b (maxRetriesOf data) 0 [] = (RetryOutcome.history rs, evs) →
      rs.length ≤ 3 := by
  have hm : maxRetriesOf data = 2 := by
    unfold maxRetriesOf
    rw [hd]
    rfl
  refine ⟨hm, fun rs evs heq => ?_⟩
  rw [hm] at heq
  have := runWithRetry_history_length b 2 2 0 [] rs evs (by omega) heq
  simpa using this

/-- C4: contrary to the claim, the "no eligible work" path does raise: when
`getNetworkRunner` yields no runner, `runWithRetry` returns the `true`
sentinel and `run`'s `results[results.length - 1].didSucceed()` then
dereferences `undefined`, so the per-network closure raises a `TypeError`
to the scheduler instead of skipping with no exception — after the health
report was started but before any flush. -/
theorem C4_no_runner_raises :
    processNetwork [] noRunnerBehavior bravoNet =
      NetworkOutcome.raised [Event.started]
        "TypeError: Cannot read properties of undefined" ∧
    run (fun _ => noRunnerBehavior) [bravoNet] (some []) =
      RunResult.executed
        [NetworkOutcome.raised [Event.started]
          "TypeError: Cannot read properties of undefined"] := by
  have h1 : processNetwork [] noRunnerBehavior bravoNet =
      NetworkOutcome.raised [Event.started]
        "TypeError: Cannot read properties of undefined" := by
    unfold processNetwork
    rw [if_neg (by simp), if_neg (by simp [bravoNet])]
    rw [runWithRetry_noRunner (rfl : noRunnerBehavior 0 = Attempt.noRunner)]
  have h2 : run (fun _ => noRunnerBehavior) [bravoNet] (some []) =
      RunResult.executed [processNetwork [] noRunnerBehavior bravoNet] := rfl
  exact ⟨h1, by rw [h2, h1]⟩

/-- C5 (amended): a processed network is flushed once per attempt, not once
per invocation: when the retry sequence returns its attempt history, the
number of `sendLog()` calls equals the history length; and a completed
per-network closure calls exactly one of `health.success`/`health.failed`. -/
theorem C5_flush_per_attempt :
    (∀ (b : Nat → Attempt) (m : Nat) (rs : List RunnerState) (evs : List Event),
        runWithRetry b m 0 [] = (RetryOutcome.history rs, evs) →
        countSendLog evs = rs.length) ∧
    (∀ (names : List String) (b : Nat → Attempt) (data : NetworkConfig)
        (evs : List Event) (succeeded : Bool),
        processNetwork names b data = NetworkOutcome.completed evs succeeded →
        countTerminalMarks evs = 1) := by
  constructor
  · intro b m rs evs heq
    have h := runWithRetry_countSendLog b m m 0 [] rs evs (by omega) heq
    simpa using h
  · intro names b data evs succeeded hc
    exact processNetwork_terminalMarks hc

theorem C5_flush_per_attempt_witness :
    ∃ rs evs,
      runWithRetry alwaysFailBehavior 1 0 [] = (RetryOutcome.history rs, evs) ∧
      countSendLog evs = rs.length := by
  obtain ⟨rs, evs, rl, heq, _, _, _⟩ :=
    runWithRetry_alwaysFail alwaysFailBehavior 1
      (fun _ => ⟨failingRunner, rfl, rfl, rfl⟩) 1 0 [] rfl
  exact ⟨rs, evs, heq, C5_flush_per_attempt.1 alwaysFailBehavior 1 rs evs heq⟩

/-- C5 counterexample: a network with `autostake.retries = 1` and a runner
failing both attempts completes its run normally, but with two `sendLog()`
flushes in the one scheduler invocation, not exactly one. -/
theorem C5_flush_per_attempt_counterexample :
    (processNetwork [] alwaysFailBehavior alphaNet).isCompleted = true ∧
    countSendLog (processNetwork [] alwaysFailBehavior alphaNet).events = 2 := by
  obtain ⟨rs, evs, rl, heq, hlen, hlast, hdf⟩ :=
    runWithRetry_alwaysFail alwaysFailBehavior 1
      (fun _ => ⟨failingRunner, rfl, rfl, rfl⟩) 1 0 [] rfl
  have hm : maxRetriesOf alphaNet = 1 := rfl
  have hcount : countSendLog evs = 2 := by
    have h := runWithRetry_countSendLog alwaysFailBehavior 1 1 0 [] rs evs (by omega) heq
    simp at h hlen
    omega
  have hproc : processNetwork [] alwaysFailBehavior alphaNet =
      NetworkOutcome.completed
        (Event.started :: evs ++ attemptSummaryEvents rs ++
          [if rl.didSucceed then Event.healthSuccess else Event.healthFailed])
        rl.didSucceed := by
    unfold processNetwork
    rw [if_neg (by simp), if_neg (by simp [alphaNet]), hm]
    simp only [heq, hlast]
  rw [hproc]
  refine ⟨rfl, ?_⟩
  simp only [NetworkOutcome.events]
  rw [countSendLog_append, countSendLog_append]
  rw [show ∀ l, countSendLog (Event.started :: l) = countSendLog l from
    fun l => by simp [countSendLog]]
  rw [hcount, countSendLog_attemptSummaryEvents, hdf]
  simp [countSendLog]

/-- C7 (amended): with a present filter whose truthy names are all
configured, `run` executes one closure per configured network: a network is
skipped — with no runner construction and no health events, for every
behavior — iff the non-empty filter omits its name or `enabled` is exactly
`false`; with an empty filter every network not explicitly disabled is
processed.  An absent filter list does not mean "all networks": the
`for...of` over `undefined` raises a `TypeError` before any network is
examined. -/
theorem C7_selection (b : String → Nat → Attempt) (networks : List NetworkConfig)
    (names : List String)
    (hvalid : ∀ nm ∈ names, nm = "" ∨ nm ∈ networks.map NetworkConfig.name) :
    (∃ outs, run b networks (some names) = RunResult.executed outs ∧
      outs.length = networks.length ∧
      ∀ (i : Nat) (data : NetworkConfig), networks[i]? = some data →
        (¬specSelected names data →
          (∀ b2 : Nat → Attempt, processNetwork names b2 data = NetworkOutcome.skipped) ∧
          outs[i]? = some NetworkOutcome.skipped) ∧
        (specSelected names data → outs[i]? ≠ some NetworkOutcome.skipped)) ∧
    run b networks none = RunResult.typeError := by
  refine ⟨⟨networks.map fun data => processNetwork names (b data.name) data,
    run_executed hvalid, by simp, fun i data hi => ⟨fun hns => ?_, fun hsel => ?_⟩⟩, rfl⟩
  · refine ⟨fun b2 => processNetwork_skip hns b2, ?_⟩
    rw [List.getElem?_map, hi]
    simp [processNetwork_skip hns]
  · rw [List.getElem?_map, hi]
    simp only [Option.map_some']
    intro hcon
    have hne := processNetwork_not_skipped hsel (b data.name)
    simp at hcon
    exact hne hcon

theorem C7_selection_witness :
    (∃ outs,
      run (fun _ => alwaysFailBehavior) [alphaNet, bravoNet, charlieNet]
          (some ["alpha", "charlie"]) = RunResult.executed outs ∧
      outs.length = [alphaNet, bravoNet, charlieNet].length ∧
      ∀ (i : Nat) (data : NetworkConfig),
        [alphaNet, bravoNet, charlieNet][i]? = some data →
        (¬specSelected ["alpha", "charlie"] data →
          (∀ b2 : Nat → Attempt,
            processNetwork ["alpha", "charlie"] b2 data = NetworkOutcome.skipped) ∧
          outs[i]? = some NetworkOutcome.skipped) ∧
        (specSelected ["alpha", "charlie"] data →
          outs[i]? ≠ some NetworkOutcome.skipped)) ∧
    run (fun _ => alwaysFailBehavior) [alphaNet, bravoNet, charlieNet] none =
      RunResult.typeError :=
  C7_selection (fun _ => alwaysFailBehavior) [alphaNet, bravoNet, charlieNet]
    ["alpha", "charlie"] (by decide)

/-- C7 counterexample: invoking `run` with an absent filter sequence raises a
`TypeError` (the `for...of` over `undefined`) instead of processing all
enabled networks as the claim states. -/
theorem C7_selection_counterexample :
    run (fun _ => alwaysFailBehavior) [bravoNet] none = RunResult.typeError := rfl

/-- C8 (amended): a non-empty requested filter name matching no configured
network makes `run` return at the validation loop, for every behavior — no
network is processed; a falsy (empty-string) requested name, however, is
skipped by the `if (name && ...)` guard and does not abort. -/
theorem C8_invalid_name_aborts (networks : List NetworkConfig) (names : List String)
    (nm : String) (hmem : nm ∈ names) (hne : nm ≠ "")
    (hnotin : nm ∉ networks.map NetworkConfig.name) :
    ∃ n0, ∀ b : String → Nat → Attempt,
      run b networks (some names) = RunResult.invalidName n0 :=
  run_invalidName ⟨nm, hmem, hne, hnotin⟩

theorem C8_invalid_name_aborts_witness :
    ∃ n0, ∀ b : String → Nat → Attempt,
      run b [alphaNet, bravoNet, charlieNet] (some ["delta"]) =
        RunResult.invalidName n0 :=
  C8_invalid_name_aborts [alphaNet, bravoNet, charlieNet] ["delta"] "delta"
    (by simp) (by decide) (by decide)

/-- C8 counterexample: the requested filter name `""` matches no configured
network, yet `run` does not abort with an invalid-name condition — the
falsy-name guard lets it through and the invocation proceeds (skipping every
network, since no name equals `""`). -/
theorem C8_invalid_name_aborts_counterexample :
    run (fun _ => alwaysFailBehavior) [alphaNet, bravoNet, charlieNet] (some [""]) =
      RunResult.executed
        [NetworkOutcome.skipped, NetworkOutcome.skipped, NetworkOutcome.skipped] := by
  decide

/-- C9: the summary logger emits one `Sent successCount/totalCount
transactions` line, where `successCount` is the total minus the number of
results carrying a (truthy) error, followed by exactly one `TX n: message`
detail line per result in original order; the empty sequence yields `0/0`
and no detail lines, and the two-element example yields `1/2` and its two
detail lines in order. -/
theorem C9_summary_lines (rs : List TxResult) :
    (logSummary rs).length = rs.length + 1 ∧
    (logSummary rs)[0]? =
      some ("Sent " ++ toString (rs.length - (rs.filter fun r => jsTruthy r.error).length)
        ++ "/" ++ toString rs.length ++ " transactions") ∧
    (∀ i r, rs[i]? = some r →
      (logSummary rs)[i + 1]? = some ("TX " ++ toString (i + 1) ++ ": " ++ r.message)) ∧
    logSummary [] = ["Sent 0/0 transactions"] ∧
    logSummary [txA, txB] = ["Sent 1/2 transactions", "TX 1: a", "TX 2: b"] := by
  have h : logSummary rs =
      ("Sent " ++ toString (rs.length - (rs.filter fun r => jsTruthy r.error).length)
        ++ "/" ++ toString rs.length ++ " transactions")
        :: (rs.enum.map fun p => "TX " ++ toString (p.1 + 1) ++ ": " ++ p.2.message) := rfl
  refine ⟨by simp [logSummary], by rw [h, List.getElem?_cons_zero], ?_, by decide, by decide⟩
  intro i r hi
  rw [h, List.getElem?_cons_succ, List.getElem?_map, List.getElem?_enum, hi]
  rfl

theorem C9_summary_lines_witness :
    (logSummary [txA, txB]).length = [txA, txB].length + 1 ∧
    (logSummary [txA, txB])[0]? =
      some ("Sent " ++
        toString ([txA, txB].length - ([txA, txB].filter fun r => jsTruthy r.error).length)
        ++ "/" ++ toString [txA, txB].length ++ " transactions") ∧
    (∀ i r, [txA, txB][i]? = some r →
      (logSummary [txA, txB])[i + 1]? =
        some ("TX " ++ toString (i + 1) ++ ": " ++ r.message)) ∧
    logSummary [] = ["Sent 0/0 transactions"] ∧
    logSummary [txA, txB] = ["Sent 1/2 transactions", "TX 1: a", "TX 2: b"] :=
  C9_summary_lines [txA, txB]

theorem C10_default_retries_witness :
    maxRetriesOf bravoNet = 2 ∧
    ∀ (rs : List RunnerState) (evs : List Event),
      runWithRetry alwaysFailBehavior (maxRetriesOf bravoNet) 0 [] =
        (RetryOutcome.history rs, evs) →
      rs.length ≤ 3 :=
  C10_default_retries bravoNet alwaysFailBehavior rfl

end Restake
